import Mathlib

/-!
Verification of the Billing & Claims Adjudication Engine.

The development embeds the core of the hospital billing repository:
`BillingEngine.calculate_totals` (duplicate detection, deduplication and
financial totals from `billing_engine.py`), the summary-row defaulting of
`billing_adapter.py`, and the insurance pre-authorization simulation and
claim-status aggregation of `Insurance_main.py`.  Monetary values are
modelled as rationals; Python's `round(x, 2)` is modelled as round-half-even
to two decimal places; the random draw of `random.random()` is modelled as
an explicit rational parameter.
-/

/-- Round-half-even of a rational to an integer, the rounding mode of
Python's builtin `round`. -/
def rhe (x : ℚ) : ℤ :=
  if x - ⌊x⌋ < 1/2 then ⌊x⌋
  else if (1 : ℚ)/2 < x - ⌊x⌋ then ⌊x⌋ + 1
  else if ⌊x⌋ % 2 = 0 then ⌊x⌋ else ⌊x⌋ + 1

/-- Python's `round(x, 2)`: round-half-even to two decimal places. -/
def round2 (x : ℚ) : ℚ := ((rhe (x * 100) : ℤ) : ℚ) / 100

/-- One itemized charge line, with the columns required by the billing
adapter's schema: UHID, Head, Description, Qty, Rate, Amount, Date. -/
structure Charge where
  uhid : String
  head : String
  description : String
  qty : ℚ
  rate : ℚ
  amount : ℚ
  date : String
deriving DecidableEq

/-- The grouping key used by duplicate detection: the (Head, Description)
column pair. -/
def chargeKey (c : Charge) : String × String := (c.head, c.description)

/-- Number of charge lines of `l` whose (Head, Description) key is `k`:
the size of the groupby group of `k`. -/
def countKey (l : List Charge) (k : String × String) : ℕ :=
  l.countP (fun c => decide (chargeKey c = k))

/-- The distinct (Head, Description) keys occurring in a charge list
(the index of the pandas groupby). -/
def chargeKeys (l : List Charge) : List (String × String) :=
  (l.map chargeKey).dedup

/-- Lexicographic order on (Head, Description) keys; pandas sorts group
keys this way when iterating `groupby(...).size()`. -/
def keyLe (a b : String × String) : Bool :=
  decide (a.1 < b.1) || (a.1 == b.1 && decide (a.2 ≤ b.2))

/-- The diagnostic string of `billing_engine.py` line 19 for a duplicated
key `k` whose group has `n` members. -/
def dupMsg (k : String × String) (n : ℕ) : String :=
  "Duplicate charge \x27" ++ k.2 ++ "\x27 under head \x27" ++ k.1 ++
    "\x27. Kept 1, ignored " ++ toString (n - 1) ++ " extra."

/-- Duplicate detection of `calculate_totals` lines 15-20: group by
(Head, Description), keep the groups of size above one (in sorted key
order, as pandas iterates them) and format one diagnostic per group. -/
def billing_errors (l : List Charge) : List String :=
  (((chargeKeys l).mergeSort keyLe).filter (fun k => decide (1 < countKey l k))).map
    (fun k => dupMsg k (countKey l k))

/-- Worker for `drop_duplicates(keep=first)`: drop every line whose key was
already seen, keep the first line of each fresh key. -/
def dropDupsFrom (seen : List (String × String)) : List Charge → List Charge
  | [] => []
  | c :: cs =>
    if chargeKey c ∈ seen then dropDupsFrom seen cs
    else c :: dropDupsFrom (chargeKey c :: seen) cs

/-- `charges_df.drop_duplicates(subset=[Head, Description], keep=first)`
of `calculate_totals` line 23. -/
def dropDuplicates (l : List Charge) : List Charge :=
  dropDupsFrom [] l

/-- A per-patient summary row; `Discount` and `Advance Paid` may each be
missing, in which case `Series.get` defaults them to 0. -/
structure SummaryRow where
  discount : Option ℚ
  advance_paid : Option ℚ
deriving DecidableEq

/-- The result record returned by `calculate_totals`. -/
structure BillingTotals where
  subtotal : ℚ
  gst : ℚ
  discount : ℚ
  advance_paid : ℚ
  grand_total : ℚ
  total_paid : ℚ
  balance_due : ℚ
  errors : List String
  charges : List Charge
deriving DecidableEq

namespace BillingEngine

/-- The fixed tax rate `BillingEngine.GST_RATE = 0.05`. -/
def GST_RATE : ℚ := 5/100

/-- `BillingEngine.calculate_totals` of `billing_engine.py`: detect
duplicates, deduplicate, and compute subtotal, GST, grand total and
balance due. -/
def calculate_totals (charges_df : List Charge) (summary_row : SummaryRow) :
    BillingTotals :=
  let errors := billing_errors charges_df
  let cleaned_charges := dropDuplicates charges_df
  let subtotal := (cleaned_charges.map Charge.amount).sum
  let gst := round2 (subtotal * GST_RATE)
  let discount := summary_row.discount.getD 0
  let advance_paid := summary_row.advance_paid.getD 0
  let grand_total := subtotal + gst - discount
  let total_paid := advance_paid
  let balance_due := grand_total - total_paid
  { subtotal := subtotal, gst := gst, discount := discount,
    advance_paid := advance_paid, grand_total := grand_total,
    total_paid := total_paid, balance_due := balance_due,
    errors := errors, charges := cleaned_charges }

end BillingEngine

/-- Summary-row selection of `billing_adapter.py` lines 68-69: when no
summary row matches the patient, a row with `Discount = 0` and
`Advance Paid = 0` is substituted. -/
def summaryRowFor (s : Option SummaryRow) : SummaryRow :=
  match s with
  | some row => row
  | none => { discount := some 0, advance_paid := some 0 }

/-- The fixed pre-authorization policy table `PRE_AUTH_RULES` of
`Insurance_main.py`, as an association list in insertion order. -/
def PRE_AUTH_RULES : List (String × String) :=
  [("ICU", "Partial"),
   ("OT/Cath Lab", "Required"),
   ("Surgery/Procedure", "Required"),
   ("Anesthesia", "Required"),
   ("Room Rent", "Partial"),
   ("Pharmacy & Consumables", "Approved"),
   ("Investigations", "Approved"),
   ("Miscellaneous", "Approved"),
   ("Nursing", "Approved"),
   ("Procedure/Treatment", "Required")]

/-- The partial-approval factor `PARTIAL_PERCENT = 0.8`. -/
def PARTIAL_PERCENT : ℚ := 8/10

/-- `pre_auth_simulation(head, amount)` of `Insurance_main.py`; the value
drawn by `random.random()` in the Required branch is made the explicit
parameter `draw`. -/
def pre_auth_simulation (head : String) (amount : ℚ) (draw : ℚ) : String × ℚ :=
  let rule := (PRE_AUTH_RULES.lookup head).getD "Approved"
  if rule = "Approved" then ("Approved", amount)
  else if rule = "Partial" then ("Partial", round2 (amount * PARTIAL_PERCENT))
  else if rule = "Required" then
    let approved_amount :=
      if 1/5 < draw then amount else round2 (amount * PARTIAL_PERCENT)
    let status := if approved_amount = amount then "Approved" else "Partial"
    (status, approved_amount)
  else ("Rejected", 0)

/-- The overall-claim-status aggregation of `process_insurance_zip`
lines 96-104. -/
def overall_claim_status (statuses : List String) : String :=
  if statuses.all (fun s => decide (s = "Approved")) then "Approved"
  else if statuses.any (fun s => decide (s = "Rejected")) then "Partial"
  else if statuses.any (fun s => decide (s = "Partial")) then "Partial"
  else "Pending"

/-- One row of the itemized bill sheet (PartC) as consumed by the
adjudication loop: the Head and Amount columns, plus the two fields the
loop fills in (absent on freshly ingested rows). -/
structure BillItem where
  head : String
  amount : ℚ
  pre_auth_status : Option String := none
  authorized_amount : Option ℚ := none
deriving DecidableEq

/-- Effect of one iteration of the adjudication loop of
`process_insurance_zip` lines 85-88 on one bill row: the computed status
and authorized amount are stored into the row's own fields. -/
def adjItem (d : ℚ) (b : BillItem) : BillItem :=
  let r := pre_auth_simulation b.head b.amount d
  { b with pre_auth_status := some r.1, authorized_amount := some r.2 }

/-- The adjudication loop over the bill rows, one random draw per row. -/
def adjudicateBills (draw : ℕ → ℚ) : List BillItem → List BillItem
  | [] => []
  | b :: bs => adjItem (draw 0) b :: adjudicateBills (fun n => draw (n + 1)) bs

/-- The status list of `process_insurance_zip` line 96, read back from the
rows the adjudication loop wrote into. -/
def claimStatuses (draw : ℕ → ℚ) (bills : List BillItem) : List String :=
  (adjudicateBills draw bills).map (fun b => b.pre_auth_status.getD "")

theorem countKey_nil (k : String × String) : countKey [] k = 0 := rfl

theorem countKey_cons (c : Charge) (cs : List Charge) (k : String × String) :
    countKey (c :: cs) k = countKey cs k + if chargeKey c = k then 1 else 0 := by
  simp [countKey, List.countP_cons]

theorem dropDupsFrom_sublist (l : List Charge) :
    ∀ seen : List (String × String), (dropDupsFrom seen l).Sublist l := by
  induction l with
  | nil => intro seen; simp [dropDupsFrom]
  | cons c cs ih =>
    intro seen
    rw [dropDupsFrom]
    by_cases hc : chargeKey c ∈ seen
    · rw [if_pos hc]
      exact (ih seen).trans (List.sublist_cons_self c cs)
    · rw [if_neg hc]
      exact (ih (chargeKey c :: seen)).cons₂ c

theorem countKey_dropDupsFrom (l : List Charge) :
    ∀ (seen : List (String × String)) (k : String × String),
    countKey (dropDupsFrom seen l) k
      = if k ∈ seen then 0 else min (countKey l k) 1 := by
  induction l with
  | nil => intro seen k; by_cases hk : k ∈ seen <;> simp [dropDupsFrom, countKey, hk]
  | cons c cs ih =>
    intro seen k
    rw [dropDupsFrom]
    by_cases hc : chargeKey c ∈ seen
    · rw [if_pos hc, ih seen k]
      by_cases hk : k ∈ seen
      · simp [hk]
      · have hne : ¬(chargeKey c = k) := fun h => hk (h ▸ hc)
        simp [hk, countKey_cons, hne]
    · rw [if_neg hc]
      by_cases hk : k = chargeKey c
      · subst hk
        rw [countKey_cons, ih (chargeKey c :: seen) (chargeKey c)]
        simp [hc, countKey_cons]
      · have hne : ¬(chargeKey c = k) := fun h => hk h.symm
        rw [countKey_cons, ih (chargeKey c :: seen) k, countKey_cons]
        by_cases hks : k ∈ seen
        · simp [hks, hne, List.mem_cons, hk]
        · simp [hks, hne, List.mem_cons, hk]

theorem mem_dropDupsFrom_first (l : List Charge) :
    ∀ (seen : List (String × String)) (x : Charge), x ∈ dropDupsFrom seen l →
      chargeKey x ∉ seen
      ∧ l.find? (fun y => decide (chargeKey y = chargeKey x)) = some x := by
  induction l with
  | nil => intro seen x hx; simp [dropDupsFrom] at hx
  | cons c cs ih =>
    intro seen x hx
    rw [dropDupsFrom] at hx
    by_cases hc : chargeKey c ∈ seen
    · rw [if_pos hc] at hx
      obtain ⟨hns, hfind⟩ := ih seen x hx
      have hne : ¬(chargeKey c = chargeKey x) := fun h => hns (h ▸ hc)
      refine ⟨hns, ?_⟩
      rw [List.find?_cons_of_neg _ (by simpa using hne), hfind]
    · rw [if_neg hc] at hx
      rcases List.mem_cons.mp hx with rfl | hx'
      · exact ⟨hc, by rw [List.find?_cons_of_pos _ (by simp)]⟩
      · obtain ⟨hns, hfind⟩ := ih (chargeKey c :: seen) x hx'
        have hne : ¬(chargeKey c = chargeKey x) := fun h => by
          rw [h] at hns; exact hns (List.mem_cons_self _ _)
        have hns' : chargeKey x ∉ seen := fun h => hns (List.mem_cons_of_mem _ h)
        refine ⟨hns', ?_⟩
        rw [List.find?_cons_of_neg _ (by simpa using hne), hfind]

theorem dropDupsFrom_eq_self (l : List Charge) :
    ∀ seen : List (String × String), (l.map chargeKey).Nodup →
      (∀ x ∈ l, chargeKey x ∉ seen) → dropDupsFrom seen l = l := by
  induction l with
  | nil => intro seen _ _; rfl
  | cons c cs ih =>
    intro seen hnd hdis
    rw [List.map_cons, List.nodup_cons] at hnd
    rw [dropDupsFrom, if_neg (hdis c (List.mem_cons_self _ _))]
    congr 1
    refine ih _ hnd.2 fun x hx => ?_
    intro hmem
    rcases List.mem_cons.mp hmem with h | h
    · exact hnd.1 (h ▸ List.mem_map_of_mem chargeKey hx)
    · exact hdis x (List.mem_cons_of_mem _ hx) h

theorem count_map_chargeKey (l : List Charge) (k : String × String) :
    (l.map chargeKey).count k = countKey l k := by
  induction l with
  | nil => rfl
  | cons c cs ih => simp [List.count_cons, countKey_cons, ih]

theorem countKey_dropDuplicates (l : List Charge) (k : String × String) :
    countKey (dropDuplicates l) k = min (countKey l k) 1 := by
  rw [dropDuplicates, countKey_dropDupsFrom]
  simp

theorem nodup_keys_dropDupsFrom (l : List Charge) :
    ∀ seen : List (String × String), ((dropDupsFrom seen l).map chargeKey).Nodup := by
  induction l with
  | nil => intro seen; simp [dropDupsFrom]
  | cons c cs ih =>
    intro seen
    rw [dropDupsFrom]
    by_cases hc : chargeKey c ∈ seen
    · rw [if_pos hc]; exact ih seen
    · rw [if_neg hc]
      rw [List.map_cons, List.nodup_cons]
      refine ⟨?_, ih _⟩
      intro hmem
      obtain ⟨x, hx, hkx⟩ := List.mem_map.mp hmem
      obtain ⟨hns, _⟩ := mem_dropDupsFrom_first cs _ x hx
      exact hns (by rw [hkx]; exact List.mem_cons_self _ _)

theorem nodup_keys_dropDuplicates (l : List Charge) :
    ((dropDuplicates l).map chargeKey).Nodup :=
  nodup_keys_dropDupsFrom l []

theorem dropDuplicates_idem (l : List Charge) :
    dropDuplicates (dropDuplicates l) = dropDuplicates l :=
  dropDupsFrom_eq_self _ [] (nodup_keys_dropDuplicates l) (by simp)

theorem billing_errors_dropDuplicates (l : List Charge) :
    billing_errors (dropDuplicates l) = [] := by
  rw [billing_errors]
  have h : (((chargeKeys (dropDuplicates l)).mergeSort keyLe).filter
      (fun k => decide (1 < countKey (dropDuplicates l) k))) = [] := by
    rw [List.filter_eq_nil_iff]
    intro k _
    rw [countKey_dropDuplicates]
    simp
  rw [h, List.map_nil]

theorem billing_errors_perm (l : List Charge) :
    (billing_errors l).Perm
      (((chargeKeys l).filter (fun k => decide (1 < countKey l k))).map
        (fun k => dupMsg k (countKey l k))) := by
  exact (((chargeKeys l).mergeSort_perm keyLe).filter _).map _

theorem rhe_zero : rhe 0 = 0 := by norm_num [rhe]

theorem round2_zero : round2 0 = 0 := by norm_num [round2, rhe_zero]

/-- C1: for every charge sequence and summary record, `calculate_totals`
returns a subtotal equal to the sum of Amount over the deduplicated charge
set (0 when that set is empty), `gst = round(subtotal * 0.05, 2)`,
`grandTotal = subtotal + gst - discount` and
`balanceDue = subtotal + gst - discount - advancePaid`, exactly; balance
due is not clamped and is negative for instance when an advance of 5 was
paid against an empty charge set. -/
theorem claim_C1 (charges : List Charge) (s : SummaryRow) :
    (BillingEngine.calculate_totals charges s).subtotal
        = ((dropDuplicates charges).map Charge.amount).sum
    ∧ (BillingEngine.calculate_totals charges s).gst
        = round2 ((BillingEngine.calculate_totals charges s).subtotal * (5/100))
    ∧ (BillingEngine.calculate_totals charges s).grand_total
        = (BillingEngine.calculate_totals charges s).subtotal
            + (BillingEngine.calculate_totals charges s).gst
            - (BillingEngine.calculate_totals charges s).discount
    ∧ (BillingEngine.calculate_totals charges s).balance_due
        = (BillingEngine.calculate_totals charges s).subtotal
            + (BillingEngine.calculate_totals charges s).gst
            - (BillingEngine.calculate_totals charges s).discount
            - (BillingEngine.calculate_totals charges s).advance_paid
    ∧ (BillingEngine.calculate_totals []
          { discount := some 0, advance_paid := some 5 }).balance_due < 0 :=
  ⟨rfl, rfl, rfl, rfl, by
    simp [BillingEngine.calculate_totals, billing_errors, chargeKeys,
      dropDuplicates, dropDupsFrom, BillingEngine.GST_RATE, round2_zero]⟩

/-- C2: deduplication retains exactly the first-encountered line per
(Head, Description) key — the cleaned set is a subsequence of the input,
holds exactly one line per key present in the input, and each retained
line is the first of the input with its key — and the diagnostics are
exactly one message per key group of size above one, carrying the
description, the head and the count of discarded extras; an empty input
yields an empty cleaned sequence and no diagnostics. -/
theorem claim_C2 (charges : List Charge) (s : SummaryRow) :
    (BillingEngine.calculate_totals charges s).charges.Sublist charges
    ∧ (∀ x ∈ (BillingEngine.calculate_totals charges s).charges,
        charges.find? (fun y => decide (chargeKey y = chargeKey x)) = some x)
    ∧ (∀ k, countKey (BillingEngine.calculate_totals charges s).charges k
        = min (countKey charges k) 1)
    ∧ (BillingEngine.calculate_totals charges s).errors.Perm
        (((chargeKeys charges).filter (fun k => decide (1 < countKey charges k))).map
          (fun k => dupMsg k (countKey charges k)))
    ∧ (charges = [] →
        (BillingEngine.calculate_totals charges s).charges = []
        ∧ (BillingEngine.calculate_totals charges s).errors = []) := by
  refine ⟨dropDupsFrom_sublist charges [], ?_, ?_, billing_errors_perm charges, ?_⟩
  · intro x hx
    exact (mem_dropDupsFrom_first charges [] x hx).2
  · intro k
    exact countKey_dropDuplicates charges k
  · rintro rfl
    exact ⟨rfl, by simp [BillingEngine.calculate_totals, billing_errors, chargeKeys]⟩

theorem claim_C2_witness :
    (BillingEngine.calculate_totals [] { discount := none, advance_paid := none }).charges = []
    ∧ (BillingEngine.calculate_totals [] { discount := none, advance_paid := none }).errors
        = [] :=
  (claim_C2 [] { discount := none, advance_paid := none }).2.2.2.2 rfl

/-- C8: deduplication is idempotent — running the duplicate-detection-and-
removal step of `calculate_totals` on its own cleaned output returns the
cleaned set unchanged and emits no diagnostics. -/
theorem claim_C8 (charges : List Charge) (s s2 : SummaryRow) :
    (BillingEngine.calculate_totals
        (BillingEngine.calculate_totals charges s).charges s2).charges
      = (BillingEngine.calculate_totals charges s).charges
    ∧ (BillingEngine.calculate_totals
        (BillingEngine.calculate_totals charges s).charges s2).errors = [] :=
  ⟨dropDuplicates_idem charges, billing_errors_dropDuplicates charges⟩

theorem lookup_mem_values {α β : Type} [BEq α] :
    ∀ (l : List (α × β)) (a : α) (b : β),
      l.lookup a = some b → b ∈ l.map Prod.snd := by
  intro l
  induction l with
  | nil => intro a b h; simp [List.lookup] at h
  | cons p ps ih =>
    intro a b h
    obtain ⟨k, v⟩ := p
    rw [List.lookup_cons] at h
    cases hk : a == k with
    | true => rw [hk] at h; simp at h; subst h; exact List.mem_cons_self _ _
    | false =>
      rw [hk] at h
      simp only at h
      exact List.mem_cons_of_mem _ (ih a b h)

theorem rule_range (head : String) :
    (PRE_AUTH_RULES.lookup head).getD "Approved"
      ∈ ["Approved", "Partial", "Required"] := by
  cases h : PRE_AUTH_RULES.lookup head with
  | none => simp
  | some v =>
    have hv := lookup_mem_values PRE_AUTH_RULES head v h
    simp only [PRE_AUTH_RULES, List.map_cons, List.map_nil, List.mem_cons,
      List.not_mem_nil, or_false] at hv
    rcases hv with rfl | rfl | rfl | rfl | rfl | rfl | rfl | rfl | rfl | rfl <;> simp [h]

theorem pre_auth_status_range (head : String) (amount draw : ℚ) :
    (pre_auth_simulation head amount draw).1
      ∈ ["Approved", "Partial", "Rejected"] := by
  rw [pre_auth_simulation]
  split_ifs <;> (simp; try tauto)

theorem claimStatuses_nil (draw : ℕ → ℚ) : claimStatuses draw [] = [] := rfl

theorem claimStatuses_cons (draw : ℕ → ℚ) (b : BillItem) (bs : List BillItem) :
    claimStatuses draw (b :: bs)
      = (pre_auth_simulation b.head b.amount (draw 0)).1
          :: claimStatuses (fun n => draw (n + 1)) bs := rfl

theorem claimStatuses_range (bills : List BillItem) :
    ∀ draw : ℕ → ℚ, ∀ s ∈ claimStatuses draw bills,
      s ∈ ["Approved", "Partial", "Rejected"] := by
  induction bills with
  | nil => intro draw s hs; simp [claimStatuses_nil] at hs
  | cons b bs ih =>
    intro draw s hs
    rw [claimStatuses_cons] at hs
    rcases List.mem_cons.mp hs with rfl | hs'
    · exact pre_auth_status_range b.head b.amount (draw 0)
    · exact ih _ s hs'

/-- C3: `pre_auth_simulation` obeys the policy table: a head mapped to the
Approved rule yields (Approved, amount); a head mapped to the Partial rule
yields (Partial, round(amount * 0.8, 2)); a head absent from the table
defaults to Approved with the full amount authorized. -/
theorem claim_C3 (head : String) (amount draw : ℚ) :
    (PRE_AUTH_RULES.lookup head = some "Approved" →
      pre_auth_simulation head amount draw = ("Approved", amount))
    ∧ (PRE_AUTH_RULES.lookup head = some "Partial" →
      pre_auth_simulation head amount draw = ("Partial", round2 (amount * (8/10))))
    ∧ (PRE_AUTH_RULES.lookup head = none →
      pre_auth_simulation head amount draw = ("Approved", amount)) := by
  refine ⟨fun h => ?_, fun h => ?_, fun h => ?_⟩ <;>
    simp [pre_auth_simulation, h, PARTIAL_PERCENT]

theorem claim_C3_witness :
    pre_auth_simulation "Investigations" 100 0 = ("Approved", 100)
    ∧ pre_auth_simulation "ICU" 100 0 = ("Partial", round2 (100 * (8/10)))
    ∧ pre_auth_simulation "Helipad" 100 0 = ("Approved", 100) :=
  ⟨(claim_C3 "Investigations" 100 0).1 (by rfl),
   (claim_C3 "ICU" 100 0).2.1 (by rfl),
   (claim_C3 "Helipad" 100 0).2.2 (by rfl)⟩

/-- C4: the aggregated claim status is Approved exactly when every line
status is Approved, and whenever some line status is Rejected the overall
status is Partial (never Rejected). -/
theorem claim_C4 (statuses : List String) :
    (overall_claim_status statuses = "Approved" ↔ ∀ s ∈ statuses, s = "Approved")
    ∧ ("Rejected" ∈ statuses → overall_claim_status statuses = "Partial") := by
  by_cases hall : statuses.all (fun s => decide (s = "Approved")) = true
  · have hall' : ∀ s ∈ statuses, s = "Approved" := by simpa using hall
    refine ⟨?_, fun hr => ?_⟩
    · rw [overall_claim_status, if_pos hall]
      exact ⟨fun _ => hall', fun _ => rfl⟩
    · have := hall' _ hr
      simp at this
  · have hall' : ¬∀ s ∈ statuses, s = "Approved" := by simpa using hall
    refine ⟨?_, fun hr => ?_⟩
    · rw [overall_claim_status, if_neg hall]
      constructor
      · intro h; exfalso; revert h; split_ifs <;> simp
      · intro h; exact absurd h hall'
    · rw [overall_claim_status, if_neg hall, if_pos]
      simp only [List.any_eq_true]
      exact ⟨"Rejected", hr, by simp⟩

theorem claim_C4_witness :
    overall_claim_status ["Approved", "Rejected"] = "Partial" :=
  (claim_C4 ["Approved", "Rejected"]).2 (by simp)

/-- C5 counterexample: a patient with no claim lines is aggregated to
Approved, not Pending — the empty status list passes the all-Approved
check, refuting the claim that the overall status is Pending exactly on
the empty line set. -/
theorem claim_C5_cex :
    overall_claim_status [] = "Approved"
    ∧ overall_claim_status [] ≠ "Pending" := by
  constructor <;> simp [overall_claim_status]

/-- C5 amended: the overall status is Pending exactly when some line
status differs from Approved while no line status is Rejected or Partial
(possible only with statuses outside the simulator's range); the empty
status list aggregates to Approved, not Pending. -/
theorem claim_C5_amended (statuses : List String) :
    (overall_claim_status statuses = "Pending" ↔
      ((∃ s ∈ statuses, s ≠ "Approved")
        ∧ ∀ s ∈ statuses, s ≠ "Rejected" ∧ s ≠ "Partial"))
    ∧ overall_claim_status [] = "Approved" := by
  refine ⟨?_, by simp [overall_claim_status]⟩
  rw [overall_claim_status]
  by_cases hall : statuses.all (fun s => decide (s = "Approved")) = true
  · have hall' : ∀ s ∈ statuses, s = "Approved" := by simpa using hall
    rw [if_pos hall]
    constructor
    · intro h; simp at h
    · rintro ⟨⟨s, hs, hne⟩, -⟩
      exact absurd (hall' s hs) hne
  · have hall' : ¬∀ s ∈ statuses, s = "Approved" := by simpa using hall
    rw [if_neg hall]
    by_cases hrej : statuses.any (fun s => decide (s = "Rejected")) = true
    · rw [if_pos hrej]
      have hmem : "Rejected" ∈ statuses := by simpa using hrej
      constructor
      · intro h; simp at h
      · rintro ⟨-, hnone⟩
        exact absurd rfl (hnone _ hmem).1
    · rw [if_neg hrej]
      by_cases hpar : statuses.any (fun s => decide (s = "Partial")) = true
      · rw [if_pos hpar]
        have hmem : "Partial" ∈ statuses := by simpa using hpar
        constructor
        · intro h; simp at h
        · rintro ⟨-, hnone⟩
          exact absurd rfl (hnone _ hmem).2
      · rw [if_neg hpar]
        have hrej' : ∀ s ∈ statuses, s ≠ "Rejected" := by
          intro s hs h
          exact hrej (List.any_eq_true.mpr ⟨s, hs, by simp [h]⟩)
        have hpar' : ∀ s ∈ statuses, s ≠ "Partial" := by
          intro s hs h
          exact hpar (List.any_eq_true.mpr ⟨s, hs, by simp [h]⟩)
        constructor
        · intro _
          refine ⟨?_, fun s hs => ⟨hrej' s hs, hpar' s hs⟩⟩
          by_contra hno
          push_neg at hno
          exact hall' hno
        · intro _; rfl

theorem claim_C5_amended_witness :
    overall_claim_status ["Odd"] = "Pending" :=
  (claim_C5_amended ["Odd"]).1.mpr ⟨⟨"Odd", by simp, by simp⟩, by simp⟩

/-- C10: for every bill-line sequence and every sequence of random draws,
the aggregated claim status is Approved or Partial — the Pending branch is
unreachable from the simulator, whose per-line status is always one of
Approved, Partial or Rejected, while the empty status list satisfies the
all-Approved check. -/
theorem claim_C10 (bills : List BillItem) (draw : ℕ → ℚ)
    (head : String) (amount d : ℚ) :
    (overall_claim_status (claimStatuses draw bills) = "Approved"
      ∨ overall_claim_status (claimStatuses draw bills) = "Partial")
    ∧ (pre_auth_simulation head amount d).1 ∈ ["Approved", "Partial", "Rejected"]
    ∧ overall_claim_status [] = "Approved" := by
  refine ⟨?_, pre_auth_status_range head amount d, by simp [overall_claim_status]⟩
  by_cases hall :
      (claimStatuses draw bills).all (fun s => decide (s = "Approved")) = true
  · left
    rw [overall_claim_status, if_pos hall]
  · right
    rw [overall_claim_status, if_neg hall]
    have hex : ∃ s ∈ claimStatuses draw bills, s ≠ "Approved" := by
      by_contra hno
      push_neg at hno
      exact hall (by simpa using hno)
    obtain ⟨s, hs, hne⟩ := hex
    have hrange := claimStatuses_range bills draw s hs
    simp only [List.mem_cons, List.not_mem_nil, or_false] at hrange
    by_cases hrej :
        (claimStatuses draw bills).any (fun s => decide (s = "Rejected")) = true
    · rw [if_pos hrej]
    · rw [if_neg hrej, if_pos]
      have hsr : s ≠ "Rejected" := by
        intro h
        exact hrej (List.any_eq_true.mpr ⟨s, hs, by simp [h]⟩)
      have hsp : s = "Partial" := by
        rcases hrange with h | h | h
        · exact absurd h hne
        · exact h
        · exact absurd h hsr
      exact List.any_eq_true.mpr ⟨s, hs, by simp [hsp]⟩

/-- C7: a missing Discount or Advance Paid field defaults to 0, and the
absent-summary substitute row carries zeros, so an empty charge set with
no summary yields Subtotal, GST, Grand Total and Balance Due all 0 and no
diagnostics. -/
theorem claim_C7 (charges : List Charge) (s : SummaryRow) :
    (s.discount = none → (BillingEngine.calculate_totals charges s).discount = 0)
    ∧ (s.advance_paid = none →
        (BillingEngine.calculate_totals charges s).advance_paid = 0)
    ∧ (BillingEngine.calculate_totals [] (summaryRowFor none)).subtotal = 0
    ∧ (BillingEngine.calculate_totals [] (summaryRowFor none)).gst = 0
    ∧ (BillingEngine.calculate_totals [] (summaryRowFor none)).grand_total = 0
    ∧ (BillingEngine.calculate_totals [] (summaryRowFor none)).balance_due = 0
    ∧ (BillingEngine.calculate_totals [] (summaryRowFor none)).errors = [] := by
  refine ⟨fun h => ?_, fun h => ?_, ?_, ?_, ?_, ?_, ?_⟩
  · simp [BillingEngine.calculate_totals, h]
  · simp [BillingEngine.calculate_totals, h]
  all_goals
    simp [BillingEngine.calculate_totals, summaryRowFor, billing_errors,
      chargeKeys, dropDuplicates, dropDupsFrom, BillingEngine.GST_RATE, round2_zero]

theorem claim_C7_witness :
    (BillingEngine.calculate_totals [] { discount := none, advance_paid := none }).discount = 0
    ∧ (BillingEngine.calculate_totals []
        { discount := none, advance_paid := none }).advance_paid = 0 :=
  ⟨(claim_C7 [] { discount := none, advance_paid := none }).1 rfl,
   (claim_C7 [] { discount := none, advance_paid := none }).2.1 rfl⟩

theorem adjudicateBills_length (bills : List BillItem) :
    ∀ draw : ℕ → ℚ, (adjudicateBills draw bills).length = bills.length := by
  induction bills with
  | nil => intro draw; rfl
  | cons b bs ih => intro draw; simp [adjudicateBills, ih]

theorem adjudicateBills_get (bills : List BillItem) :
    ∀ (draw : ℕ → ℚ) (i : ℕ) (h : i < bills.length)
      (h2 : i < (adjudicateBills draw bills).length),
      (adjudicateBills draw bills).get ⟨i, h2⟩
        = adjItem (draw i) (bills.get ⟨i, h⟩) := by
  induction bills with
  | nil => intro draw i h h2; simp at h
  | cons b bs ih =>
    intro draw i h h2
    cases i with
    | zero => rfl
    | succ n =>
      have h' : n < bs.length := Nat.lt_of_succ_lt_succ h
      have h2' : n < (adjudicateBills (fun m => draw (m + 1)) bs).length := by
        rw [adjudicateBills_length]; exact h'
      simpa [adjudicateBills] using ih (fun m => draw (m + 1)) n h' h2'

/-- C9 counterexample: the adjudication loop writes the computed fields
into the bill row itself — the processed row carries a Pre-Auth Status
and Authorized Amount, so it is not the ingested source row (whose two
computed fields are empty) with a separate outcome record alongside. -/
theorem claim_C9_cex :
    adjudicateBills (fun _ => 1) [{ head := "Nursing", amount := 100 }]
      = [{ head := "Nursing", amount := 100,
           pre_auth_status := some "Approved",
           authorized_amount := some 100 }]
    ∧ adjudicateBills (fun _ => 1) [{ head := "Nursing", amount := 100 }]
        ≠ [{ head := "Nursing", amount := 100 }] := by
  have hlook : PRE_AUTH_RULES.lookup "Nursing" = some "Approved" := rfl
  have h1 : adjudicateBills (fun _ => 1) [{ head := "Nursing", amount := 100 }]
      = [{ head := "Nursing", amount := 100,
           pre_auth_status := some "Approved", authorized_amount := some 100 }] := by
    simp [adjudicateBills, adjItem, pre_auth_simulation, hlook]
  refine ⟨h1, ?_⟩
  rw [h1]
  simp

/-- C9 amended: `calculate_totals` does not alter the charge lines — its
cleaned output is a subsequence of the input made of the original lines —
but per-line adjudication stores its results into the bill rows rather
than producing a separate outcome record: each output row is its source
row with the computed status and authorized amount written into the
row's own Pre-Auth Status and Authorized Amount fields. -/
theorem claim_C9_amended (charges : List Charge) (s : SummaryRow)
    (draw : ℕ → ℚ) (bills : List BillItem) (i : ℕ)
    (h : i < bills.length) (h2 : i < (adjudicateBills draw bills).length) :
    (BillingEngine.calculate_totals charges s).charges.Sublist charges
    ∧ (adjudicateBills draw bills).length = bills.length
    ∧ ((adjudicateBills draw bills).get ⟨i, h2⟩).head = (bills.get ⟨i, h⟩).head
    ∧ ((adjudicateBills draw bills).get ⟨i, h2⟩).amount = (bills.get ⟨i, h⟩).amount
    ∧ ((adjudicateBills draw bills).get ⟨i, h2⟩).pre_auth_status
        = some (pre_auth_simulation (bills.get ⟨i, h⟩).head
            (bills.get ⟨i, h⟩).amount (draw i)).1
    ∧ ((adjudicateBills draw bills).get ⟨i, h2⟩).authorized_amount
        = some (pre_auth_simulation (bills.get ⟨i, h⟩).head
            (bills.get ⟨i, h⟩).amount (draw i)).2 := by
  have hg := adjudicateBills_get bills draw i h h2
  refine ⟨dropDupsFrom_sublist charges [], adjudicateBills_length bills draw,
    ?_, ?_, ?_, ?_⟩ <;> rw [hg] <;> rfl

theorem claim_C9_amended_witness :
    ((adjudicateBills (fun _ => 1) [{ head := "Nursing", amount := 100 }]).get
        ⟨0, by rw [adjudicateBills_length]; exact Nat.zero_lt_one⟩).pre_auth_status
      = some (pre_auth_simulation "Nursing" 100 1).1 :=
  (claim_C9_amended [] { discount := none, advance_paid := none } (fun _ => 1)
    [{ head := "Nursing", amount := 100 }] 0 Nat.zero_lt_one
    (by rw [adjudicateBills_length]; exact Nat.zero_lt_one)).2.2.2.2.1

theorem rhe_ge (x : ℚ) : x - 1/2 ≤ (rhe x : ℚ) := by
  have h1 : (⌊x⌋ : ℚ) ≤ x := Int.floor_le x
  have h2 : x < ⌊x⌋ + 1 := Int.lt_floor_add_one x
  rw [rhe]
  split_ifs with ha hb hc
  · linarith
  · push_cast; linarith
  · linarith
  · push_cast; linarith

theorem rhe_le_add (x : ℚ) : (rhe x : ℚ) ≤ x + 1/2 := by
  have h1 : (⌊x⌋ : ℚ) ≤ x := Int.floor_le x
  have h2 : x < ⌊x⌋ + 1 := Int.lt_floor_add_one x
  rw [rhe]
  split_ifs with ha hb hc
  · linarith
  · push_cast; linarith
  · linarith
  · push_cast; linarith

theorem rhe_low (x : ℚ) (n : ℤ) (h1 : (n : ℚ) ≤ x) (h3 : x - n < 1/2) :
    rhe x = n := by
  have hf : ⌊x⌋ = n := Int.floor_eq_iff.mpr ⟨h1, by linarith⟩
  rw [rhe, hf, if_pos h3]

theorem rhe_high (x : ℚ) (n : ℤ) (h2 : x < n + 1) (h3 : (1 : ℚ)/2 < x - n) :
    rhe x = n + 1 := by
  have hf : ⌊x⌋ = n := Int.floor_eq_iff.mpr ⟨by linarith, h2⟩
  rw [rhe, hf, if_neg (by linarith), if_pos h3]

theorem partial_amount_bounds (k : ℕ) :
    0 ≤ round2 ((k : ℚ)/100 * PARTIAL_PERCENT)
    ∧ round2 ((k : ℚ)/100 * PARTIAL_PERCENT) ≤ (k : ℚ)/100
    ∧ (round2 ((k : ℚ)/100 * PARTIAL_PERCENT) = 0 → k = 0) := by
  have hk0 : (0 : ℚ) ≤ (k : ℚ) := Nat.cast_nonneg k
  have hx : (k : ℚ)/100 * PARTIAL_PERCENT * 100 = 4 * k / 5 := by
    rw [PARTIAL_PERCENT]; ring
  have hge := rhe_ge (4 * (k : ℚ) / 5)
  have hle := rhe_le_add (4 * (k : ℚ) / 5)
  have hm0 : 0 ≤ rhe (4 * (k : ℚ) / 5) := by
    by_contra hneg
    push_neg at hneg
    have h1 : rhe (4 * (k : ℚ) / 5) ≤ -1 := Int.le_sub_one_of_lt hneg
    have h1' : (rhe (4 * (k : ℚ) / 5) : ℚ) ≤ -1 := by exact_mod_cast h1
    linarith
  have hm0' : (0 : ℚ) ≤ (rhe (4 * (k : ℚ) / 5) : ℚ) := by exact_mod_cast hm0
  have hmk : (rhe (4 * (k : ℚ) / 5) : ℚ) ≤ (k : ℚ) := by
    have h1 : (rhe (4 * (k : ℚ) / 5) : ℚ) < (k : ℚ) + 1 := by linarith
    have h2 : rhe (4 * (k : ℚ) / 5) < (k : ℤ) + 1 := by exact_mod_cast h1
    have h3 : rhe (4 * (k : ℚ) / 5) ≤ (k : ℤ) := Int.lt_add_one_iff.mp h2
    exact_mod_cast h3
  refine ⟨?_, ?_, ?_⟩
  · rw [round2, hx]
    positivity
  · rw [round2, hx]
    linarith
  · rw [round2, hx]
    intro h
    have hm : (rhe (4 * (k : ℚ) / 5) : ℚ) = 0 := by
      field_simp at h
      exact_mod_cast h
    by_contra hk
    have hk1 : 1 ≤ k := Nat.one_le_iff_ne_zero.mpr hk
    have hk1' : (1 : ℚ) ≤ (k : ℚ) := by exact_mod_cast hk1
    linarith

/-- C6 counterexample: the invariant 0 ≤ authorizedAmount ≤ amount fails
for an arbitrary amount — a Room Rent line of amount 0.019 falls under the
Partial rule and is authorized at round(0.0152, 2) = 0.02, which exceeds
the amount. -/
theorem claim_C6_cex :
    (pre_auth_simulation "Room Rent" (19/1000) 0).1 = "Partial"
    ∧ ¬((pre_auth_simulation "Room Rent" (19/1000) 0).2 ≤ 19/1000) := by
  have hlook : PRE_AUTH_RULES.lookup "Room Rent" = some "Partial" := rfl
  have hval : pre_auth_simulation "Room Rent" (19/1000) 0
      = ("Partial", round2 ((19/1000) * PARTIAL_PERCENT)) := by
    simp [pre_auth_simulation, hlook]
  have hr : round2 ((19/1000 : ℚ) * PARTIAL_PERCENT) = 1/50 := by
    have hx : (19/1000 : ℚ) * PARTIAL_PERCENT * 100 = 38/25 := by
      rw [PARTIAL_PERCENT]; ring
    rw [round2, hx, rhe_high (38/25) 1 (by norm_num) (by norm_num)]
    norm_num
  rw [hval, hr]
  norm_num

/-- C6 amended: restricted to whole-cent nonnegative amounts (k/100 with
natural k), every outcome of `pre_auth_simulation` satisfies
0 ≤ authorizedAmount ≤ amount; the status Rejected is never produced (so
Rejected implies authorizedAmount = 0 holds vacuously), and a zero
authorized amount occurs only for a zero amount. -/
theorem claim_C6_amended (head : String) (k : ℕ) (draw : ℚ) :
    0 ≤ (pre_auth_simulation head ((k : ℚ)/100) draw).2
    ∧ (pre_auth_simulation head ((k : ℚ)/100) draw).2 ≤ (k : ℚ)/100
    ∧ (pre_auth_simulation head ((k : ℚ)/100) draw).1 ≠ "Rejected"
    ∧ ((pre_auth_simulation head ((k : ℚ)/100) draw).2 = 0 → (k : ℚ)/100 = 0) := by
  have hk0 : (0 : ℚ) ≤ (k : ℚ) := Nat.cast_nonneg k
  have hb := partial_amount_bounds k
  have hr := rule_range head
  simp only [List.mem_cons, List.not_mem_nil, or_false] at hr
  have hv0 : pre_auth_simulation head ((k : ℚ)/100) draw
      = if (PRE_AUTH_RULES.lookup head).getD "Approved" = "Approved"
        then ("Approved", (k : ℚ)/100)
        else if (PRE_AUTH_RULES.lookup head).getD "Approved" = "Partial"
        then ("Partial", round2 ((k : ℚ)/100 * PARTIAL_PERCENT))
        else if (PRE_AUTH_RULES.lookup head).getD "Approved" = "Required"
        then (if (if (1 : ℚ)/5 < draw then (k : ℚ)/100
                  else round2 ((k : ℚ)/100 * PARTIAL_PERCENT)) = (k : ℚ)/100
              then "Approved" else "Partial",
              if (1 : ℚ)/5 < draw then (k : ℚ)/100
              else round2 ((k : ℚ)/100 * PARTIAL_PERCENT))
        else ("Rejected", 0) := rfl
  rcases hr with hr | hr | hr
  · rw [hv0, if_pos hr]
    exact ⟨by positivity, le_refl _, by simp, fun h => h⟩
  · rw [hv0, if_neg (by simp [hr]), if_pos hr]
    refine ⟨hb.1, hb.2.1, by simp, fun h => ?_⟩
    have := hb.2.2 h
    simp [this]
  · rw [hv0, if_neg (by simp [hr]), if_neg (by simp [hr]), if_pos hr]
    by_cases hd : (1 : ℚ)/5 < draw
    · rw [if_pos hd, if_pos rfl]
      exact ⟨by positivity, le_refl _, by simp, fun h => h⟩
    · rw [if_neg hd]
      refine ⟨hb.1, hb.2.1, ?_, fun h => ?_⟩
      · split_ifs <;> simp
      · have := hb.2.2 h
        simp [this]

theorem claim_C6_amended_witness :
    0 ≤ (pre_auth_simulation "ICU" (((100 : ℕ) : ℚ)/100) 0).2
    ∧ (pre_auth_simulation "ICU" (((100 : ℕ) : ℚ)/100) 0).2 ≤ ((100 : ℕ) : ℚ)/100 :=
  ⟨(claim_C6_amended "ICU" 100 0).1, (claim_C6_amended "ICU" 100 0).2.1⟩
